import Mathlib

/-!
The package builder gopack (Debian and RPM archives).

A shallow embedding of `deb/deb.go`, `config/config.go` and `main.go`.

* Go strings are lists of characters (`Str`); every separator the code looks
  at (`/`, `.`, the space) is a single ASCII byte, so splitting by characters
  and splitting by bytes agree.
* Everything the program does to the outside world (reading files, walking
  folders, appending to the two tar archives, creating the output file,
  writing `ar` members, calling the `rpm` package) is recorded, in order, in
  a log of `Event`s.  A `World` decides what the outside world answers: the
  content of files, the result of a folder walk, whether an operation
  fails, the order in which a `range` statement visits a map.
* The wall clock read by `time.Now()` is the explicit argument `now`.
* `log.Printf` / `log.Println` output is not modelled.
-/

namespace gopack

/-- A Go `string`. -/
abbrev Str := List Char

/-! ## Go standard library: `strings` and `path/filepath` (Unix) -/

namespace strings

/-- Go `strings.HasPrefix(s, p)`. -/
def HasPrefix (s p : Str) : Bool := p.isPrefixOf s

/-- Go `strings.TrimPrefix(s, p)`: `s` without the leading `p` when `s` starts
with `p`, and `s` itself otherwise. -/
def TrimPrefix (s p : Str) : Str :=
  if HasPrefix s p then s.drop p.length else s

/-- Go `strings.Split(s, string(sep))` for a one-character separator: the
pieces of `s` between consecutive occurrences of `sep`; an occurrence at the
start, at the end, or next to another one gives an empty piece, and the empty
string gives one empty piece. -/
def Split : Str → Char → List Str
  | [], _ => [[]]
  | c :: cs, sep =>
    if c = sep then [] :: Split cs sep
    else
      match Split cs sep with
      | [] => [[c]]
      | h :: t => (c :: h) :: t

/-- Go `strings.Join(elems, sep)`. -/
def Join (elems : List Str) (sep : Str) : Str := sep.intercalate elems

end strings

namespace filepath

/-- One step of `filepath.Clean` on a path element `c`; `out` holds the
elements kept so far, last one first.  Empty elements and `.` are dropped; `..`
removes the element before it, is kept when there is nothing to remove on a
relative path (or after another `..`), and is dropped at the root. -/
def cleanPush (rooted : Bool) (out : List Str) (c : Str) : List Str :=
  if c = [] ∨ c = ['.'] then out
  else if c = ['.', '.'] then
    match out with
    | [] => if rooted then [] else [c]
    | top :: rest => if top = ['.', '.'] then c :: out else rest
  else c :: out

/-- Go `filepath.Clean(path)` on Unix. -/
def Clean (path : Str) : Str :=
  if path = [] then ['.']
  else
    let rooted := path.head? = some '/'
    let out := ((strings.Split path '/').foldl (cleanPush rooted) []).reverse
    let body := strings.Join out ['/']
    if rooted then '/' :: body
    else if body = [] then ['.'] else body

/-- Go `filepath.Join(elem...)`: the elements from the first non-empty one
on, joined by `/` and cleaned; the empty string when all are empty. -/
def Join : List Str → Str
  | [] => []
  | e :: es => if e ≠ [] then Clean (strings.Join (e :: es) ['/']) else Join es

/-- The part of `path` up to and including its last `/`. -/
def dirPart (path : Str) : Str :=
  (path.reverse.dropWhile (fun c => c ≠ '/')).reverse

/-- Go `filepath.Dir(path)` on Unix. -/
def Dir (path : Str) : Str := Clean (dirPart path)

end filepath

/-! ## Data model -/

namespace deb

/-- The type `deb.DataCompression`. -/
abbrev DataCompression := Str

/-- The type `deb.Arch`. -/
abbrev Arch := Str

def debControl : Str := "control.tar.gz".toList
def debData : Str := "data.tar.gz".toList
def debData_xz : Str := "data.tar.xz".toList
def debData_zst : Str := "data.tar.zst".toList
def debBinary : Str := "debian-binary".toList

def Compression_GZIP : DataCompression := "gzip".toList
def Compression_XZ : DataCompression := "xz".toList
def Compression_ZSTD : DataCompression := "zstd".toList

def Arch_AMD64 : Arch := "amd64".toList

/-- The struct `deb.Control` (declared outside the files under study); the
fields are the ones `deb.go` and `main.go` assign. -/
structure Control where
  Package : Str := []
  Version : Str := []
  Architecture : Str := []
  Description : Str := []
  Homepage : Str := []
  Depends : Str := []
  Section : Str := []
  Maintainer : Str := []
deriving DecidableEq, Repr

/-- One entry of a tar archive under construction. -/
inductive Member where
  | folder (name : Str)
  | file (name : Str) (body : Str)
deriving DecidableEq, Repr

/-- Modelled from the spec: the type `canonical` (PayloadArchiver with its
ChecksumLedger), declared outside the files under study.  It holds the
members appended so far, in insertion order, and the checksum ledger: one
pair (target path, digest) per file added, in add order. -/
structure canonical where
  members : List Member := []
  md5s : List (Str × Str) := []
deriving DecidableEq, Repr

/-- Modelled from the spec: `md5s.Bytes()`, the checksum listing: one line
`digest`, two spaces, `path` per ledger entry, in recorded order. -/
def canonical.md5Bytes (c : canonical) : Str :=
  (c.md5s.map (fun e => e.2 ++ [' ', ' '] ++ e.1 ++ ['\n'])).flatten

/-- The struct `deb.Deb`. -/
structure Deb where
  Data : canonical := {}
  Control : canonical := {}
  Info : deb.Control := {}
  PreInst : Str := []
  PostInst : Str := []
  PreRm : Str := []
  PostRm : Str := []
  ConfFiles : Str := []
deriving DecidableEq, Repr

/-- The fields of `ar.Header` that `addBinary` sets. -/
structure Header where
  Name : Str
  ModTime : Nat
  Mode : Nat
  Size : Nat
deriving DecidableEq, Repr

end deb

open deb

/-- Which of the two archives of a `Deb` an operation acts on. -/
inductive Which where
  | Data
  | Control
deriving DecidableEq, Repr

/-- The header tags `createRPM` assigns in `pkg.Spec.Header`. -/
inductive RpmTag where
  | Summary
  | Packager
  | URL
deriving DecidableEq, Repr

/-- One completed interaction with the outside world. -/
inductive Event where
  /-- The call `newCanonical()` returned an archive. -/
  | newCanonical
  /-- A file was read (`os.ReadFile`, or the source of `canonical.AddFile`). -/
  | readFile (path : Str)
  /-- A folder was walked by `files.New`. -/
  | walk (path : Str)
  /-- A member was appended to the data or the control archive. -/
  | add (c : Which) (m : Member)
  /-- The output file was created by `os.Create`. -/
  | osCreate (fileName : Str)
  /-- The call `ar.WriteGlobalHeader()`. -/
  | arGlobalHeader
  /-- The call `ar.WriteHeader(h)`. -/
  | arHeader (h : Header)
  /-- The call `ar.Write(body)`. -/
  | arBody (body : Str)
  /-- The call `canonical.write(ar, name)`: archive `c` written as the `ar` member `name`. -/
  | arArchive (name : Str) (c : canonical)
  /-- The call `rpm.New(name, version, revision, arch)`. -/
  | rpmNew (name version revision arch : Str)
  /-- The assignment `pkg.Spec.Header[tag] = value`. -/
  | rpmHeader (tag : RpmTag) (value : Str)
  /-- The call `pkg.Spec.Depends(tokens...)`. -/
  | rpmDepends (tokens : List Str)
  /-- The assignment `pkg.Spec.Description = value`. -/
  | rpmDescription (value : Str)
  | rpmAddEmptyFolder (path : Str)
  | rpmAddFolder (path pfx : Str)
  | rpmAddFile (source target : Str)
  | rpmCreate (folder : Str)
deriving DecidableEq, Repr

namespace config

/-- The struct `config.Scripts`. -/
structure Scripts where
  PreInst : Str := []
  PostInst : Str := []
  PreUnInst : Str := []
  PostUnInst : Str := []
deriving DecidableEq, Repr

/-- The struct `config.PackageOptions`.  A Go `map[string]string` is the list
of its key/value pairs (keys distinct); the order of the list carries no
meaning, the order of a `range` over it is chosen by the `World`. -/
structure PackageOptions where
  Name : Str := []
  Version : Str := []
  Revision : Str := []
  Arch : Str := []
  Compression : Str := []
  Description : Str := []
  Homepage : Str := []
  Depends : Str := []
  Section : Str := []
  Maintainer : Str := []
  Folders : List (Str × Str) := []
  Files : List (Str × Str) := []
  Script : Scripts := {}
  Conffiles : Str := []
deriving DecidableEq, Repr

end config

/-- The answers of the outside world. -/
structure World where
  /-- Content of the file at a path (`os.ReadFile`), or the error. -/
  readFile : Str → Except Str Str
  /-- Field `Files` of `files.New(path)`: the files found under `path`, or the error. -/
  walk : Str → Except Str (List Str)
  /-- Whether the operation fails, given the log so far: `some err` on failure. -/
  fails : List Event → Event → Option Str
  /-- The digest function of the checksum ledger. -/
  md5 : Str → Str
  /-- The method `Control.bytes()`: the rendered control text. -/
  render : deb.Control → Str
  /-- The order in which `range` visits the entries of a map. -/
  range : {α : Type} → List (Str × α) → List (Str × α)
  /-- The call `json.Unmarshal` into a `PackageOptions`. -/
  unmarshal : Str → Except Str config.PackageOptions

/-! ## Programs: functions from the log so far to a result and the new log -/

/-- A computation that may fail with an error and appends to the event log. -/
def Prog (α : Type) : Type := List Event → Except Str α × List Event

namespace Prog

/-- Return `a`: nothing happens. -/
def ret {α : Type} (a : α) : Prog α := fun l => (Except.ok a, l)

/-- Return the error `msg`. -/
def fail {α : Type} (msg : Str) : Prog α := fun l => (Except.error msg, l)

/-- Run `x`, then `f` on its result; an error of `x` ends the computation. -/
def andThen {α β : Type} (x : Prog α) (f : α → Prog β) : Prog β := fun l =>
  match x l with
  | (Except.ok a, l1) => f a l1
  | (Except.error e, l1) => (Except.error e, l1)

/-- Rewrap the error of `x` (`fmt.Errorf` around `err`). -/
def wrap {α : Type} (f : Str → Str) (x : Prog α) : Prog α := fun l =>
  match x l with
  | (Except.ok a, l1) => (Except.ok a, l1)
  | (Except.error e, l1) => (Except.error (f e), l1)

/-- An interaction that cannot fail. -/
def emit (e : Event) : Prog Unit := fun l => (Except.ok (), l ++ [e])

end Prog

instance : Monad Prog where
  pure := Prog.ret
  bind := Prog.andThen

/-- An interaction that fails when the world says so and is logged otherwise. -/
def World.perform (w : World) (e : Event) : Prog Unit := fun l =>
  match w.fails l e with
  | some err => (Except.error err, l)
  | none => (Except.ok (), l ++ [e])

/-- The call `os.ReadFile(path)`. -/
def World.ReadFile (w : World) (path : Str) : Prog Str := fun l =>
  match w.readFile path with
  | Except.error err => (Except.error err, l)
  | Except.ok data => (Except.ok data, l ++ [Event.readFile path])

/-- The call `files.New(path)`, giving the field `Files` of the result. -/
def World.filesNew (w : World) (path : Str) : Prog (List Str) := fun l =>
  match w.walk path with
  | Except.error err => (Except.error err, l)
  | Except.ok fs => (Except.ok fs, l ++ [Event.walk path])

/-! ## Package `deb` -/

namespace deb

/-- Modelled from the spec: `newCanonical()`, the constructor of an empty
archive; it is declared outside the files under study and may fail. -/
def newCanonical (w : World) : Prog canonical := do
  w.perform Event.newCanonical
  pure {}

/-- Modelled from the spec: `canonical.AddEmptyFolder(name)` appends a
directory-only member and leaves the checksum ledger alone. -/
def canonical.AddEmptyFolder (w : World) (tag : Which) (c : canonical) (name : Str) :
    Prog canonical := do
  w.perform (Event.add tag (Member.folder name))
  pure { c with members := c.members ++ [Member.folder name] }

/-- Modelled from the spec: `canonical.AddBytes(data, name)` appends a file
member with the given bytes. -/
def canonical.AddBytes (w : World) (tag : Which) (c : canonical) (data : Str) (name : Str) :
    Prog canonical := do
  w.perform (Event.add tag (Member.file name data))
  pure { c with members := c.members ++ [Member.file name data] }

/-- Modelled from the spec: `canonical.AddFile(sourcePath, targetPath)` reads
the source file, appends a member under `targetPath` and records the digest
of the content in the ledger, keyed by `targetPath`. -/
def canonical.AddFile (w : World) (tag : Which) (c : canonical) (sourcePath targetPath : Str) :
    Prog canonical := do
  let data ← w.ReadFile sourcePath
  w.perform (Event.add tag (Member.file targetPath data))
  pure { members := c.members ++ [Member.file targetPath data],
         md5s := c.md5s ++ [(targetPath, w.md5 data)] }

/-- Modelled from the spec: `canonical.write(ar, name)` writes the archive as
the single `ar` member `name`. -/
def canonical.write (w : World) (c : canonical) (name : Str) : Prog Unit :=
  w.perform (Event.arArchive name c)

/-- The function `deb.New`.  The argument `Compression` is not used. -/
def New (w : World) (name version revision : Str) (arch : Arch) (Compression : DataCompression) :
    Prog Deb := do
  let info : deb.Control :=
    { Package := name,
      Version := if revision ≠ [] then version ++ "-".toList ++ revision else version,
      Architecture := arch }
  let data ← newCanonical w
  let control ← newCanonical w
  pure { Data := data, Control := control, Info := info }

/-- The method `Deb.addBinary`. -/
def Deb.addBinary (w : World) (now : Nat) : Prog Unit := do
  let body : Str := "2.0\n".toList
  let header : Header := { Name := debBinary, Mode := 0o664, Size := body.length, ModTime := now }
  w.perform (Event.arHeader header)
  w.perform (Event.arBody body)

/-- Lines 90-132 of `Deb.Create`: the entries appended to the control
archive; the result is the control archive after them. -/
def Deb.addControlEntries (w : World) (d : Deb) : Prog canonical := do
  let c ← d.Control.AddEmptyFolder w Which.Control "./".toList
  let c ← c.AddBytes w Which.Control (w.render d.Info) "./control".toList
  let c ← c.AddBytes w Which.Control d.Data.md5Bytes "./md5sums".toList
  let c ← (if d.PostInst ≠ [] then c.AddBytes w Which.Control d.PostInst "postinst".toList else pure c)
  let c ← (if d.PreInst ≠ [] then c.AddBytes w Which.Control d.PreInst "preinst".toList else pure c)
  let c ← (if d.PostRm ≠ [] then c.AddBytes w Which.Control d.PostRm "postrm".toList else pure c)
  let c ← (if d.PreRm ≠ [] then c.AddBytes w Which.Control d.PreRm "prerm".toList else pure c)
  (if d.ConfFiles ≠ [] then c.AddBytes w Which.Control d.ConfFiles "conffiles".toList else pure c)

/-- The file name computed at line 133 of `Deb.Create`. -/
def Deb.fileName (d : Deb) (folder : Str) : Str :=
  filepath.Join [folder,
    d.Info.Package ++ "_".toList ++ d.Info.Version ++ "_".toList ++ d.Info.Architecture
      ++ ".deb".toList]

/-- Lines 133-157 of `Deb.Create`: create the output file and write the `ar`
container; `c` is the control archive after `addControlEntries`. -/
def Deb.writePackage (w : World) (now : Nat) (d : Deb) (c : canonical) (folder : Str) :
    Prog Str := do
  let fileName := d.fileName folder
  w.perform (Event.osCreate fileName)
  w.perform Event.arGlobalHeader
  Deb.addBinary w now
  c.write w debControl
  d.Data.write w debData
  pure fileName

/-- The method `Deb.Create`. -/
def Deb.Create (w : World) (now : Nat) (d : Deb) (folder : Str) : Prog Str :=
  if d.Info.Package = [] then Prog.fail "package name cannot be empty".toList
  else do
    let c ← d.addControlEntries w
    d.writePackage w now c folder

/-- The method `Deb.AddFile`. -/
def Deb.AddFile (w : World) (d : Deb) (sourcePath targetPath : Str) : Prog Deb := do
  let data ← d.Data.AddFile w Which.Data sourcePath targetPath
  pure { d with Data := data }

/-- The method `Deb.AddEmptyFolder`. -/
def Deb.AddEmptyFolder (w : World) (d : Deb) (name : Str) : Prog Deb := do
  let data ← d.Data.AddEmptyFolder w Which.Data name
  pure { d with Data := data }

/-- The loop of `Deb.AddFolder` over the files found. -/
def Deb.addFolderFiles (w : World) (baseDir pfx : Str) : List Str → Deb → Prog Deb
  | [], d => pure d
  | path :: rest, d => do
    let targetPath := filepath.Join [pfx, strings.TrimPrefix path baseDir]
    let d ← d.AddFile w path targetPath
    Deb.addFolderFiles w baseDir pfx rest d

/-- The method `Deb.AddFolder`. -/
def Deb.AddFolder (w : World) (d : Deb) (path pfx : Str) : Prog Deb := do
  let fc ← w.filesNew path
  let baseDir := filepath.Dir path
  Deb.addFolderFiles w baseDir pfx fc d

end deb

/-! ## Package `config` -/

namespace config

/-- The function `config.Load`. -/
def Load (w : World) (fileName : Str) : Prog PackageOptions := do
  let data ← w.ReadFile fileName
  match w.unmarshal data with
  | Except.error err => Prog.fail err
  | Except.ok conf => pure conf

end config

/-! ## Package `main` -/

/-- The struct behind the package variable `Options`. -/
structure Options where
  OutPath : Str := []
  ConfigFileName : Str := []
  BuildRPM : Bool := false
  BuildDeb : Bool := false
  Version : Str := []
  Revision : Str := []
deriving DecidableEq, Repr

/-- The five string fields of a `Deb` that `createDeb` takes the address of. -/
inductive Field where
  | PostInst
  | PreInst
  | PostRm
  | PreRm
  | ConfFiles
deriving DecidableEq, Repr

/-- The assignment `*value = data` for a pointer to a field of the `Deb`. -/
def Field.assign (d : Deb) : Field → Str → Deb
  | Field.PostInst, data => { d with PostInst := data }
  | Field.PreInst, data => { d with PreInst := data }
  | Field.PostRm, data => { d with PostRm := data }
  | Field.PreRm, data => { d with PreRm := data }
  | Field.ConfFiles, data => { d with ConfFiles := data }

/-- The assignment `m[k] = v` on a Go map: the value of an existing key is
replaced, a new key is added. -/
def mapSet {α : Type} : List (Str × α) → Str → α → List (Str × α)
  | [], k, v => [(k, v)]
  | (k1, v1) :: rest, k, v => if k1 = k then (k, v) :: rest else (k1, v1) :: mapSet rest k v

/-- A Go map literal: the entries are assigned in the order written, so that
of two entries with the same key the later one stays. -/
def mapLit {α : Type} (entries : List (Str × α)) : List (Str × α) :=
  entries.foldl (fun m e => mapSet m e.1 e.2) []

/-- The function `loadFile`; the pointer `value` is `none` when it is `nil`. -/
def loadFile (w : World) (src : Str) (value : Option Field) (d : Deb) : Prog Deb :=
  if src = [] then pure d
  else do
    let data ← w.ReadFile src
    match value with
    | none => Prog.fail "value is null".toList
    | some f => pure (f.assign d data)

/-- The first loop of `createRPM`, over `cfg.Folders`. -/
def rpmAddFolders (w : World) : List (Str × Str) → Prog Unit
  | [] => pure ()
  | (path, pfx) :: rest => do
    Prog.wrap (fun err => "failed to add folder: ".toList ++ err)
      (if pfx = [] then w.perform (Event.rpmAddEmptyFolder path)
       else w.perform (Event.rpmAddFolder path pfx))
    rpmAddFolders w rest

/-- The second loop of `createRPM`, over `cfg.Files`. -/
def rpmAddFiles (w : World) : List (Str × Str) → Prog Unit
  | [] => pure ()
  | (source, target) :: rest => do
    Prog.wrap (fun err => "failed to ad file: '".toList ++ err ++ "'".toList)
      (w.perform (Event.rpmAddFile source target))
    rpmAddFiles w rest

/-- The function `createRPM`.  The package `rpm` is outside the files under
study: its calls are logged, and those returning an error may fail. -/
def createRPM (w : World) (opts : Options) (cfg : config.PackageOptions) : Prog Unit := do
  w.perform (Event.rpmNew cfg.Name cfg.Version cfg.Revision cfg.Arch)
  Prog.emit (Event.rpmHeader RpmTag.Summary cfg.Name)
  Prog.emit (Event.rpmHeader RpmTag.Packager cfg.Maintainer)
  Prog.emit (Event.rpmHeader RpmTag.URL cfg.Homepage)
  Prog.emit (Event.rpmDepends (strings.Split cfg.Depends ' '))
  Prog.emit (Event.rpmDescription cfg.Description)
  rpmAddFolders w (w.range cfg.Folders)
  rpmAddFiles w (w.range cfg.Files)
  Prog.wrap (fun err => "failed to create package: '".toList ++ err ++ "'".toList)
    (w.perform (Event.rpmCreate opts.OutPath))

/-- The first loop of `createDeb`, over `cfg.Folders`. -/
def debAddFolders (w : World) : List (Str × Str) → Deb → Prog Deb
  | [], d => pure d
  | (path, pfx) :: rest, d => do
    let d ← Prog.wrap (fun err => "failed to add folder: ".toList ++ err)
      (if pfx = [] then d.AddEmptyFolder w path else d.AddFolder w path pfx)
    debAddFolders w rest d

/-- The second loop of `createDeb`, over `cfg.Files`. -/
def debAddFiles (w : World) : List (Str × Str) → Deb → Prog Deb
  | [], d => pure d
  | (source, target) :: rest, d => do
    let d ← Prog.wrap (fun err => "failed to add file: '".toList ++ err ++ "'".toList)
      (d.AddFile w source target)
    debAddFiles w rest d

/-- The map `files` of `createDeb`, from a path to the field it is loaded into. -/
def scriptFiles (cfg : config.PackageOptions) : List (Str × Field) :=
  mapLit [(cfg.Script.PostInst, Field.PostInst),
          (cfg.Script.PreInst, Field.PreInst),
          (cfg.Script.PostUnInst, Field.PostRm),
          (cfg.Script.PreUnInst, Field.PreRm),
          (cfg.Conffiles, Field.ConfFiles)]

/-- The third loop of `createDeb`, over the map `files`. -/
def debLoadFiles (w : World) : List (Str × Field) → Deb → Prog Deb
  | [], d => pure d
  | (source, target) :: rest, d => do
    let d ← Prog.wrap (fun _ => "failed to load file ".toList ++ source)
      (loadFile w source (some target) d)
    debLoadFiles w rest d

/-- Lines 88-132 of `createDeb`: everything before the call of `Create`; the
result is the `Deb` that `Create` is then called on. -/
def createDebPrepare (w : World) (cfg : config.PackageOptions) : Prog Deb := do
  let d ← New w cfg.Name cfg.Version cfg.Revision cfg.Arch cfg.Compression
  let d : Deb :=
    { d with Info := { d.Info with Description := cfg.Description, Homepage := cfg.Homepage,
                                   Depends := cfg.Depends, Section := cfg.Section,
                                   Maintainer := cfg.Maintainer } }
  let d ← debAddFolders w (w.range cfg.Folders) d
  let d ← debAddFiles w (w.range cfg.Files) d
  debLoadFiles w (w.range (scriptFiles cfg)) d

/-- The function `createDeb`. -/
def createDeb (w : World) (now : Nat) (opts : Options) (cfg : config.PackageOptions) :
    Prog Unit := do
  let d ← createDebPrepare w cfg
  let _ ← Prog.wrap (fun err => "failed to create package: '".toList ++ err ++ "'".toList)
    (d.Create w now opts.OutPath)
  pure ()

/-- The function `create`.  A non-empty `Options.Revision` is only logged. -/
def create (w : World) (now : Nat) (opts : Options) : Prog Unit := do
  let cfg ← Prog.wrap
    (fun err => "failed to load config file: '".toList ++ opts.ConfigFileName
      ++ "', error: ".toList ++ err)
    (config.Load w opts.ConfigFileName)
  let cfg := if opts.Version ≠ [] then { cfg with Version := opts.Version } else cfg
  (if opts.BuildRPM then
    Prog.wrap (fun err => "failed to create rpm: ".toList ++ err) (createRPM w opts cfg)
  else pure ())
  (if opts.BuildDeb then
    Prog.wrap (fun err => "failed to create deb: ".toList ++ err) (createDeb w now opts cfg)
  else pure ())
  (if !opts.BuildDeb && !opts.BuildRPM then
    Prog.fail "must specify ether 'rpm' or 'deb'".toList
  else pure ())

/-! ## Specification vocabulary -/

instance instDecidableEqExcept {ε α : Type} [DecidableEq ε] [DecidableEq α] :
    DecidableEq (Except ε α)
  | Except.ok a, Except.ok b =>
    if h : a = b then isTrue (by rw [h]) else isFalse (fun h1 => h (Except.ok.inj h1))
  | Except.error a, Except.error b =>
    if h : a = b then isTrue (by rw [h]) else isFalse (fun h1 => h (Except.error.inj h1))
  | Except.ok _, Except.error _ => isFalse (fun h => Except.noConfusion h)
  | Except.error _, Except.ok _ => isFalse (fun h => Except.noConfusion h)

/-- Every run of `x` only appends to the log, and every event it appends
satisfies `P`. -/
def Prog.Emits {α : Type} (P : Event → Prop) (x : Prog α) : Prop :=
  ∀ l, ∃ s, (x l).2 = l ++ s ∧ ∀ e ∈ s, P e

/-- The entry a non-empty `text` contributes under `name`, none when empty. -/
def optionalEntry (name text : Str) : List Member :=
  if text ≠ [] then [Member.file name text] else []

/-- The entries of the control archive in the order the claim lists them. -/
def expectedControlEntries (w : World) (d : Deb) : List Member :=
  [Member.folder "./".toList,
   Member.file "./control".toList (w.render d.Info),
   Member.file "./md5sums".toList d.Data.md5Bytes]
  ++ optionalEntry "postinst".toList d.PostInst
  ++ optionalEntry "preinst".toList d.PreInst
  ++ optionalEntry "postrm".toList d.PostRm
  ++ optionalEntry "prerm".toList d.PreRm
  ++ optionalEntry "conffiles".toList d.ConfFiles

/-- The members added to the control archive, read off a log. -/
def controlAdds (l : List Event) : List Member :=
  l.filterMap (fun e => match e with
    | Event.add Which.Control m => some m
    | _ => none)

/-- The events of a successful `writePackage`. -/
def writeEvents (now : Nat) (d : Deb) (c : canonical) (folder : Str) : List Event :=
  [Event.osCreate (d.fileName folder),
   Event.arGlobalHeader,
   Event.arHeader { Name := debBinary, ModTime := now, Mode := 0o664, Size := 4 },
   Event.arBody "2.0\n".toList,
   Event.arArchive debControl c,
   Event.arArchive debData d.Data]

/-- Events that add to the control archive, create the output file or write
to the `ar` container. -/
def Event.isOutput : Event → Bool
  | Event.add Which.Control _ => true
  | Event.osCreate _ => true
  | Event.arGlobalHeader => true
  | Event.arHeader _ => true
  | Event.arBody _ => true
  | Event.arArchive _ _ => true
  | _ => false

/-- Events that add a member to the control archive. -/
def Event.isControlAdd : Event → Bool
  | Event.add Which.Control _ => true
  | _ => false

/-- The token lists passed to `Spec.Depends`, read off a log. -/
def dependsCalls (l : List Event) : List (List Str) :=
  l.filterMap (fun e => match e with
    | Event.rpmDepends toks => some toks
    | _ => none)

/-- Events that call `Spec.Depends`. -/
def Event.isDepends : Event → Bool
  | Event.rpmDepends _ => true
  | _ => false

/-- Go `unicode.IsSpace` on ASCII: space, tab, newline, vertical tab, form feed,
carriage return. -/
def isSpace (c : Char) : Bool :=
  c = ' ' || c = '\t' || c = '\n' || c = '\x0b' || c = '\x0c' || c = '\r'

/-- The pieces of a string between consecutive characters satisfying `p`. -/
def splitWhere (p : Char → Bool) : Str → List Str
  | [] => [[]]
  | c :: cs =>
    if p c then [] :: splitWhere p cs
    else
      match splitWhere p cs with
      | [] => [[c]]
      | h :: t => (c :: h) :: t

/-- The split on whitespace in the words of the specification: the maximal
runs of non-whitespace characters, in order, with no empty token. -/
def whitespaceFields (s : Str) : List Str :=
  (splitWhere isSpace s).filter (fun t => t ≠ [])

/-! ## Concrete inputs -/

/-- A configuration: package `demo` 1.0, revision 2, for amd64, compressed with xz. -/
def demoConfig : config.PackageOptions :=
  { Name := "demo".toList, Version := "1.0".toList, Revision := "2".toList,
    Arch := "amd64".toList, Compression := "xz".toList,
    Depends := "libc6 zlib1g".toList }

/-- A file system with the files `README`, `LICENSE`, `s.sh`, `.hidden/a.txt`,
`assets/logo.png` and `pkg.config.json` (which parses to `demoConfig`), in which no operation fails and a `range` visits a map in the order of its list. -/
def demoWorld : World where
  readFile := fun path =>
    if path = "README".toList then Except.ok "hello".toList
    else if path = "LICENSE".toList then Except.ok "free".toList
    else if path = "s.sh".toList then Except.ok "exit 0".toList
    else if path = ".hidden/a.txt".toList then Except.ok "a".toList
    else if path = "assets/logo.png".toList then Except.ok "png".toList
    else if path = "pkg.config.json".toList then Except.ok "json".toList
    else Except.error "no such file".toList
  walk := fun path =>
    if path = ".hidden".toList then Except.ok [".hidden/a.txt".toList]
    else if path = "assets".toList then Except.ok ["assets/logo.png".toList]
    else if path = "assets/".toList then Except.ok ["assets/logo.png".toList]
    else Except.error "no such folder".toList
  fails := fun _ _ => none
  md5 := fun data => "md5:".toList ++ data
  render := fun info => "Package: ".toList ++ info.Package ++ "\nVersion: ".toList ++ info.Version
  range := fun m => m
  unmarshal := fun _ => Except.ok demoConfig

/-- The world `demoWorld` with every `range` visiting the map in the opposite order. -/
def reverseWorld : World := { demoWorld with range := fun m => m.reverse }

/-- The configuration `demoConfig` without a name, with two files, a folder and a script. -/
def namelessConfig : config.PackageOptions :=
  { demoConfig with
    Name := [],
    Folders := [(".hidden".toList, "/opt".toList)],
    Files := [("README".toList, "/usr/share/doc/demo/README".toList),
              ("LICENSE".toList, "/usr/share/doc/demo/LICENSE".toList)],
    Script := { PostInst := "s.sh".toList } }

/-- The configuration `demoConfig` with the same path for `post_inst` and `pre_inst`. -/
def sharedScriptConfig : config.PackageOptions :=
  { demoConfig with Script := { PostInst := "s.sh".toList, PreInst := "s.sh".toList } }

/-- The command line `--deb --rpm --version 3.1 --revision 9`. -/
def overrideOptions : Options :=
  { ConfigFileName := "pkg.config.json".toList, BuildRPM := true, BuildDeb := true,
    Version := "3.1".toList, Revision := "9".toList }

/-- The `Deb` that `New` returns for `demoConfig`. -/
def demoDeb : Deb :=
  { Info := { Package := "demo".toList, Version := "1.0-2".toList,
              Architecture := "amd64".toList } }

/-! ## Lemmas on programs -/

namespace Prog

variable {α β : Type}

theorem bind_apply (x : Prog α) (f : α → Prog β) (l : List Event) :
    (x >>= f) l = match x l with
      | (Except.ok a, l1) => f a l1
      | (Except.error e, l1) => (Except.error e, l1) := rfl

theorem pure_apply (a : α) (l : List Event) : (pure a : Prog α) l = (Except.ok a, l) := rfl

theorem bind_ok_iff (x : Prog α) (f : α → Prog β) (l l2 : List Event) (b : β) :
    (x >>= f) l = (Except.ok b, l2) ↔
      ∃ a l1, x l = (Except.ok a, l1) ∧ f a l1 = (Except.ok b, l2) := by
  rw [bind_apply]
  rcases hx : x l with ⟨r, l1⟩
  cases r with
  | error e => simp
  | ok a =>
    constructor
    · intro h
      exact ⟨a, l1, rfl, h⟩
    · rintro ⟨a1, l3, h1, h2⟩
      cases h1
      exact h2

theorem pure_ok_iff (a b : α) (l l2 : List Event) :
    (pure a : Prog α) l = (Except.ok b, l2) ↔ b = a ∧ l2 = l := by
  rw [pure_apply]
  constructor
  · intro h
    cases h
    exact ⟨rfl, rfl⟩
  · rintro ⟨rfl, rfl⟩
    rfl

theorem wrap_ok_iff (g : Str → Str) (x : Prog α) (l l2 : List Event) (b : α) :
    Prog.wrap g x l = (Except.ok b, l2) ↔ x l = (Except.ok b, l2) := by
  unfold Prog.wrap
  rcases hx : x l with ⟨r, l1⟩
  cases r with
  | error e => simp
  | ok a => simp

theorem wrap_log (g : Str → Str) (x : Prog α) (l : List Event) :
    (Prog.wrap g x l).2 = (x l).2 := by
  unfold Prog.wrap
  rcases hx : x l with ⟨r, l1⟩
  cases r <;> rfl

theorem fail_not_ok (msg : Str) (l l2 : List Event) (b : α) :
    (Prog.fail msg : Prog α) l ≠ (Except.ok b, l2) := by
  intro h
  cases h

theorem Emits.ret (P : Event → Prop) (a : α) : Emits P (pure a : Prog α) :=
  fun l => ⟨[], by simp [pure_apply], by simp⟩

theorem Emits.fail (P : Event → Prop) (msg : Str) : Emits P (Prog.fail msg : Prog α) :=
  fun l => ⟨[], by simp [Prog.fail], by simp⟩

theorem Emits.emit (P : Event → Prop) (e : Event) (h : P e) : Emits P (Prog.emit e) :=
  fun l => ⟨[e], rfl, by simpa using h⟩

theorem Emits.bind (P : Event → Prop) (x : Prog α) (f : α → Prog β) (hx : Emits P x)
    (hf : ∀ a, Emits P (f a)) : Emits P (x >>= f) := by
  intro l
  obtain ⟨s, hs, hP⟩ := hx l
  rw [bind_apply]
  rcases hxl : x l with ⟨r, l1⟩
  rw [hxl] at hs
  cases r with
  | error e => exact ⟨s, hs, hP⟩
  | ok a =>
    obtain ⟨s2, hs2, hP2⟩ := hf a l1
    refine ⟨s ++ s2, ?_, ?_⟩
    · show (f a l1).2 = l ++ (s ++ s2)
      rw [hs2]
      have : l1 = l ++ s := hs
      rw [this, List.append_assoc]
    · intro e he
      rcases List.mem_append.mp he with h1 | h1
      · exact hP e h1
      · exact hP2 e h1

theorem Emits.wrap (P : Event → Prop) (g : Str → Str) (x : Prog α) (hx : Emits P x) :
    Emits P (Prog.wrap g x) := by
  intro l
  rw [wrap_log]
  exact hx l

theorem Emits.ite (P : Event → Prop) (c : Prop) [Decidable c] (x y : Prog α)
    (hx : Emits P x) (hy : Emits P y) : Emits P (if c then x else y) := by
  split_ifs
  · exact hx
  · exact hy

end Prog

theorem World.perform_emits (w : World) (P : Event → Prop) (e : Event) (h : P e) :
    Prog.Emits P (w.perform e) := by
  intro l
  unfold World.perform
  cases w.fails l e with
  | none => exact ⟨[e], rfl, by simpa using h⟩
  | some err => exact ⟨[], by simp, by simp⟩

theorem World.ReadFile_emits (w : World) (P : Event → Prop) (path : Str)
    (h : P (Event.readFile path)) : Prog.Emits P (w.ReadFile path) := by
  intro l
  unfold World.ReadFile
  cases w.readFile path with
  | ok data => exact ⟨[Event.readFile path], rfl, by simpa using h⟩
  | error err => exact ⟨[], by simp, by simp⟩

theorem World.filesNew_emits (w : World) (P : Event → Prop) (path : Str)
    (h : P (Event.walk path)) : Prog.Emits P (w.filesNew path) := by
  intro l
  unfold World.filesNew
  cases w.walk path with
  | ok fs => exact ⟨[Event.walk path], rfl, by simpa using h⟩
  | error err => exact ⟨[], by simp, by simp⟩

theorem World.perform_ok_iff (w : World) (e : Event) (l l2 : List Event) (u : Unit) :
    w.perform e l = (Except.ok u, l2) ↔ w.fails l e = none ∧ l2 = l ++ [e] := by
  unfold World.perform
  cases hf : w.fails l e with
  | none => simp [eq_comm]
  | some err => simp

theorem World.perform_of_none (w : World) (e : Event) (l : List Event)
    (h : w.fails l e = none) : w.perform e l = (Except.ok (), l ++ [e]) := by
  unfold World.perform
  rw [h]

/-! ## Lemmas on `Deb.Create` -/

namespace deb

theorem canonical.AddBytes_ok_iff (w : World) (tag : Which) (c c1 : canonical) (data name : Str)
    (l l1 : List Event) :
    canonical.AddBytes w tag c data name l = (Except.ok c1, l1) ↔
      w.fails l (Event.add tag (Member.file name data)) = none ∧
      c1 = { members := c.members ++ [Member.file name data], md5s := c.md5s } ∧
      l1 = l ++ [Event.add tag (Member.file name data)] := by
  unfold canonical.AddBytes
  rw [Prog.bind_ok_iff]
  constructor
  · rintro ⟨u, l2, h1, h2⟩
    rw [World.perform_ok_iff] at h1
    rw [Prog.pure_ok_iff] at h2
    obtain ⟨hf, rfl⟩ := h1
    obtain ⟨rfl, rfl⟩ := h2
    exact ⟨hf, rfl, rfl⟩
  · rintro ⟨hf, rfl, rfl⟩
    exact ⟨(), _, World.perform_of_none w _ l hf, rfl⟩

theorem canonical.AddEmptyFolder_ok_iff (w : World) (tag : Which) (c c1 : canonical) (name : Str)
    (l l1 : List Event) :
    canonical.AddEmptyFolder w tag c name l = (Except.ok c1, l1) ↔
      w.fails l (Event.add tag (Member.folder name)) = none ∧
      c1 = { members := c.members ++ [Member.folder name], md5s := c.md5s } ∧
      l1 = l ++ [Event.add tag (Member.folder name)] := by
  unfold canonical.AddEmptyFolder
  rw [Prog.bind_ok_iff]
  constructor
  · rintro ⟨u, l2, h1, h2⟩
    rw [World.perform_ok_iff] at h1
    rw [Prog.pure_ok_iff] at h2
    obtain ⟨hf, rfl⟩ := h1
    obtain ⟨rfl, rfl⟩ := h2
    exact ⟨hf, rfl, rfl⟩
  · rintro ⟨hf, rfl, rfl⟩
    exact ⟨(), _, World.perform_of_none w _ l hf, rfl⟩

/-- A successful conditional `AddBytes` appends exactly the optional entry. -/
theorem optional_add_ok (w : World) (tag : Which) (c c1 : canonical) (text name : Str)
    (l l1 : List Event)
    (h : (if text ≠ [] then canonical.AddBytes w tag c text name else pure c) l
          = (Except.ok c1, l1)) :
    c1 = { members := c.members ++ optionalEntry name text, md5s := c.md5s } ∧
    l1 = l ++ (optionalEntry name text).map (Event.add tag) := by
  by_cases ht : text = []
  · rw [if_neg (not_not.mpr ht), Prog.pure_ok_iff] at h
    obtain ⟨rfl, rfl⟩ := h
    simp [optionalEntry, ht]
  · rw [if_pos ht, canonical.AddBytes_ok_iff] at h
    obtain ⟨_, rfl, rfl⟩ := h
    simp [optionalEntry, ht]

/-- When the control entries are all added, they are the expected ones. -/
theorem Deb.addControlEntries_ok (w : World) (d : Deb) (c : canonical) (l l1 : List Event)
    (h : d.addControlEntries w l = (Except.ok c, l1)) :
    c = { members := d.Control.members ++ expectedControlEntries w d, md5s := d.Control.md5s } ∧
    l1 = l ++ (expectedControlEntries w d).map (Event.add Which.Control) := by
  unfold Deb.addControlEntries at h
  simp only [Prog.bind_ok_iff] at h
  obtain ⟨c1, l2, h1, c2, l3, h2, c3, l4, h3, c4, l5, h4, c5, l6, h5, c6, l7, h6, c7, l8, h7, h8⟩
    := h
  rw [canonical.AddEmptyFolder_ok_iff] at h1
  rw [canonical.AddBytes_ok_iff] at h2 h3
  obtain ⟨_, rfl, rfl⟩ := h1
  obtain ⟨_, rfl, rfl⟩ := h2
  obtain ⟨_, rfl, rfl⟩ := h3
  obtain ⟨rfl, rfl⟩ := optional_add_ok w _ _ _ _ _ _ _ h4
  obtain ⟨rfl, rfl⟩ := optional_add_ok w _ _ _ _ _ _ _ h5
  obtain ⟨rfl, rfl⟩ := optional_add_ok w _ _ _ _ _ _ _ h6
  obtain ⟨rfl, rfl⟩ := optional_add_ok w _ _ _ _ _ _ _ h7
  obtain ⟨rfl, rfl⟩ := optional_add_ok w _ _ _ _ _ _ _ h8
  simp [expectedControlEntries]

theorem Deb.writePackage_ok (w : World) (now : Nat) (d : Deb) (c : canonical) (folder p : Str)
    (l l1 : List Event) (h : d.writePackage w now c folder l = (Except.ok p, l1)) :
    p = d.fileName folder ∧ l1 = l ++ writeEvents now d c folder := by
  unfold Deb.writePackage Deb.addBinary canonical.write at h
  simp only [Prog.bind_ok_iff, World.perform_ok_iff, Prog.pure_ok_iff] at h
  obtain ⟨_, _, ⟨_, rfl⟩, _, _, ⟨_, rfl⟩, _, _, ⟨_, _, ⟨_, rfl⟩, _, rfl⟩, _, _, ⟨_, rfl⟩,
    _, _, ⟨_, rfl⟩, rfl, rfl⟩ := h
  refine ⟨rfl, ?_⟩
  simp [writeEvents]

/-- A successful `Create` has a non-empty package name, returns the file name of
line 133 and appends the control entries followed by the output events. -/
theorem Deb.Create_ok (w : World) (now : Nat) (d : Deb) (folder p : Str) (l l1 : List Event)
    (h : d.Create w now folder l = (Except.ok p, l1)) :
    d.Info.Package ≠ [] ∧ p = d.fileName folder ∧
    l1 = l ++ (expectedControlEntries w d).map (Event.add Which.Control)
           ++ writeEvents now d
                { members := d.Control.members ++ expectedControlEntries w d,
                  md5s := d.Control.md5s } folder := by
  unfold Deb.Create at h
  by_cases hn : d.Info.Package = []
  · rw [if_pos hn] at h
    exact absurd h (Prog.fail_not_ok _ _ _ _)
  · rw [if_neg hn, Prog.bind_ok_iff] at h
    obtain ⟨c, l2, h1, h2⟩ := h
    obtain ⟨rfl, rfl⟩ := Deb.addControlEntries_ok w d c l l2 h1
    obtain ⟨rfl, rfl⟩ := Deb.writePackage_ok w now d _ folder p _ l1 h2
    exact ⟨hn, rfl, rfl⟩

theorem canonical.AddBytes_of_none (w : World) (tag : Which) (c : canonical) (data name : Str)
    (l : List Event) (hc : ∀ h m, w.fails h (Event.add tag m) = none) :
    canonical.AddBytes w tag c data name l
      = (Except.ok { members := c.members ++ [Member.file name data], md5s := c.md5s },
         l ++ [Event.add tag (Member.file name data)]) :=
  (canonical.AddBytes_ok_iff w tag c _ data name l _).mpr ⟨hc _ _, rfl, rfl⟩

theorem canonical.AddEmptyFolder_of_none (w : World) (tag : Which) (c : canonical) (name : Str)
    (l : List Event) (hc : ∀ h m, w.fails h (Event.add tag m) = none) :
    canonical.AddEmptyFolder w tag c name l
      = (Except.ok { members := c.members ++ [Member.folder name], md5s := c.md5s },
         l ++ [Event.add tag (Member.folder name)]) :=
  (canonical.AddEmptyFolder_ok_iff w tag c _ name l _).mpr ⟨hc _ _, rfl, rfl⟩

theorem optional_add_of_none (w : World) (tag : Which) (c : canonical) (text name : Str)
    (l : List Event) (hc : ∀ h m, w.fails h (Event.add tag m) = none) :
    (if text ≠ [] then canonical.AddBytes w tag c text name else pure c) l
      = (Except.ok { members := c.members ++ optionalEntry name text, md5s := c.md5s },
         l ++ (optionalEntry name text).map (Event.add tag)) := by
  by_cases ht : text = []
  · rw [if_neg (not_not.mpr ht), Prog.pure_apply]
    simp [optionalEntry, ht]
  · rw [if_pos ht, canonical.AddBytes_of_none w tag c text name l hc]
    simp [optionalEntry, ht]

/-- When no addition to the control archive fails, all expected entries are added. -/
theorem Deb.addControlEntries_of_none (w : World) (d : Deb) (l : List Event)
    (hc : ∀ h m, w.fails h (Event.add Which.Control m) = none) :
    d.addControlEntries w l
      = (Except.ok { members := d.Control.members ++ expectedControlEntries w d,
                     md5s := d.Control.md5s },
         l ++ (expectedControlEntries w d).map (Event.add Which.Control)) := by
  unfold Deb.addControlEntries
  simp only [Prog.bind_apply, canonical.AddEmptyFolder_of_none w Which.Control _ _ _ hc,
    canonical.AddBytes_of_none w Which.Control _ _ _ _ hc,
    optional_add_of_none w Which.Control _ _ _ _ hc]
  simp [expectedControlEntries]

theorem Deb.writePackage_of_none (w : World) (now : Nat) (d : Deb) (c : canonical) (folder : Str)
    (l : List Event) (hw : ∀ h e, w.fails h e = none) :
    d.writePackage w now c folder l = (Except.ok (d.fileName folder), l ++ writeEvents now d c folder)
    := by
  unfold Deb.writePackage Deb.addBinary canonical.write
  simp only [Prog.bind_apply, World.perform_of_none w _ _ (hw _ _), Prog.pure_apply]
  simp [writeEvents]

/-- In a world where no operation fails, `Create` on a named package succeeds. -/
theorem Deb.Create_succeeds (w : World) (now : Nat) (d : Deb) (folder : Str) (l : List Event)
    (hn : d.Info.Package ≠ []) (hw : ∀ h e, w.fails h e = none) :
    ∃ l1, d.Create w now folder l = (Except.ok (d.fileName folder), l1) := by
  unfold Deb.Create
  rw [if_neg hn, Prog.bind_apply, Deb.addControlEntries_of_none w d l (fun h m => hw h _)]
  exact ⟨_, Deb.writePackage_of_none w now d _ folder _ hw⟩

/-- The `Deb` returned by `New` carries the name, the composed version and the
architecture. -/
theorem New_ok (w : World) (name version revision : Str) (arch : Arch) (comp : DataCompression)
    (d : Deb) (l l1 : List Event) (h : New w name version revision arch comp l = (Except.ok d, l1)) :
    d.Info.Package = name ∧
    d.Info.Version = (if revision ≠ [] then version ++ "-".toList ++ revision else version) ∧
    d.Info.Architecture = arch ∧
    d.PostInst = [] ∧ d.PreInst = [] ∧ d.PostRm = [] ∧ d.PreRm = [] ∧ d.ConfFiles = [] := by
  unfold New at h
  simp only [Prog.bind_ok_iff, Prog.pure_ok_iff] at h
  obtain ⟨_, _, _, _, _, _, rfl, _⟩ := h
  exact ⟨rfl, rfl, rfl, rfl, rfl, rfl, rfl, rfl⟩

theorem newCanonical_emits (w : World) :
    Prog.Emits (fun e => e.isOutput = false) (newCanonical w) := by
  unfold newCanonical
  exact Prog.Emits.bind _ _ _ (w.perform_emits _ _ rfl) (fun _ => Prog.Emits.ret _ _)

theorem New_emits (w : World) (name version revision : Str) (arch : Arch)
    (comp : DataCompression) :
    Prog.Emits (fun e => e.isOutput = false) (New w name version revision arch comp) := by
  unfold New
  exact Prog.Emits.bind _ _ _ (newCanonical_emits w) (fun _ =>
    Prog.Emits.bind _ _ _ (newCanonical_emits w) (fun _ => Prog.Emits.ret _ _))

theorem Deb.AddFile_emits (w : World) (d : Deb) (sourcePath targetPath : Str) :
    Prog.Emits (fun e => e.isOutput = false) (d.AddFile w sourcePath targetPath) := by
  unfold Deb.AddFile canonical.AddFile
  exact Prog.Emits.bind _ _ _
    (Prog.Emits.bind _ _ _ (w.ReadFile_emits _ _ rfl) (fun _ =>
      Prog.Emits.bind _ _ _ (w.perform_emits _ _ rfl) (fun _ => Prog.Emits.ret _ _)))
    (fun _ => Prog.Emits.ret _ _)

theorem Deb.AddEmptyFolder_emits (w : World) (d : Deb) (name : Str) :
    Prog.Emits (fun e => e.isOutput = false) (d.AddEmptyFolder w name) := by
  unfold Deb.AddEmptyFolder canonical.AddEmptyFolder
  exact Prog.Emits.bind _ _ _
    (Prog.Emits.bind _ _ _ (w.perform_emits _ _ rfl) (fun _ => Prog.Emits.ret _ _))
    (fun _ => Prog.Emits.ret _ _)

theorem Deb.addFolderFiles_emits (w : World) (baseDir pfx : Str) (fs : List Str) (d : Deb) :
    Prog.Emits (fun e => e.isOutput = false) (Deb.addFolderFiles w baseDir pfx fs d) := by
  induction fs generalizing d with
  | nil => exact Prog.Emits.ret _ _
  | cons path rest ih =>
    unfold Deb.addFolderFiles
    exact Prog.Emits.bind _ _ _ (Deb.AddFile_emits w d _ _) (fun d1 => ih d1)

theorem Deb.AddFolder_emits (w : World) (d : Deb) (path pfx : Str) :
    Prog.Emits (fun e => e.isOutput = false) (d.AddFolder w path pfx) := by
  unfold Deb.AddFolder
  exact Prog.Emits.bind _ _ _ (w.filesNew_emits _ _ rfl)
    (fun fc => Deb.addFolderFiles_emits w _ _ fc d)

/-- The output phase of `Create` adds nothing to the control archive. -/
theorem Deb.writePackage_emits (w : World) (now : Nat) (d : Deb) (c : canonical) (folder : Str) :
    Prog.Emits (fun e => e.isControlAdd = false) (d.writePackage w now c folder) := by
  unfold Deb.writePackage Deb.addBinary canonical.write
  exact Prog.Emits.bind _ _ _ (w.perform_emits _ _ rfl) (fun _ =>
    Prog.Emits.bind _ _ _ (w.perform_emits _ _ rfl) (fun _ =>
    Prog.Emits.bind _ _ _
      (Prog.Emits.bind _ _ _ (w.perform_emits _ _ rfl) (fun _ => w.perform_emits _ _ rfl))
      (fun _ =>
    Prog.Emits.bind _ _ _ (w.perform_emits _ _ rfl) (fun _ =>
    Prog.Emits.bind _ _ _ (w.perform_emits _ _ rfl) (fun _ => Prog.Emits.ret _ _)))))

end deb

/-! ## Lemmas on `createDeb` -/

theorem debAddFolders_emits (w : World) (m : List (Str × Str)) (d : Deb) :
    Prog.Emits (fun e => e.isOutput = false) (debAddFolders w m d) := by
  induction m generalizing d with
  | nil => exact Prog.Emits.ret _ _
  | cons e rest ih =>
    obtain ⟨path, pfx⟩ := e
    unfold debAddFolders
    exact Prog.Emits.bind _ _ _
      (Prog.Emits.wrap _ _ _
        (Prog.Emits.ite _ _ _ _ (Deb.AddEmptyFolder_emits w d path) (Deb.AddFolder_emits w d path pfx)))
      (fun d1 => ih d1)

theorem debAddFiles_emits (w : World) (m : List (Str × Str)) (d : Deb) :
    Prog.Emits (fun e => e.isOutput = false) (debAddFiles w m d) := by
  induction m generalizing d with
  | nil => exact Prog.Emits.ret _ _
  | cons e rest ih =>
    obtain ⟨source, target⟩ := e
    unfold debAddFiles
    exact Prog.Emits.bind _ _ _ (Prog.Emits.wrap _ _ _ (Deb.AddFile_emits w d source target))
      (fun d1 => ih d1)

theorem loadFile_emits (w : World) (src : Str) (value : Option Field) (d : Deb) :
    Prog.Emits (fun e => e.isOutput = false) (loadFile w src value d) := by
  unfold loadFile
  refine Prog.Emits.ite _ _ _ _ (Prog.Emits.ret _ _) ?_
  refine Prog.Emits.bind _ _ _ (w.ReadFile_emits _ _ rfl) (fun data => ?_)
  cases value with
  | none => exact Prog.Emits.fail _ _
  | some f => exact Prog.Emits.ret _ _

theorem debLoadFiles_emits (w : World) (m : List (Str × Field)) (d : Deb) :
    Prog.Emits (fun e => e.isOutput = false) (debLoadFiles w m d) := by
  induction m generalizing d with
  | nil => exact Prog.Emits.ret _ _
  | cons e rest ih =>
    obtain ⟨source, target⟩ := e
    unfold debLoadFiles
    exact Prog.Emits.bind _ _ _ (Prog.Emits.wrap _ _ _ (loadFile_emits w source _ d))
      (fun d1 => ih d1)

/-- Before `Create` is called, `createDeb` adds nothing to the control archive
and creates or writes no output. -/
theorem createDebPrepare_emits (w : World) (cfg : config.PackageOptions) :
    Prog.Emits (fun e => e.isOutput = false) (createDebPrepare w cfg) := by
  unfold createDebPrepare
  exact Prog.Emits.bind _ _ _ (New_emits w _ _ _ _ _) (fun _ =>
    Prog.Emits.bind _ _ _ (debAddFolders_emits w _ _) (fun _ =>
    Prog.Emits.bind _ _ _ (debAddFiles_emits w _ _) (fun _ => debLoadFiles_emits w _ _)))

theorem Deb.AddFile_info (w : World) (d d1 : Deb) (sourcePath targetPath : Str)
    (l l1 : List Event) (h : d.AddFile w sourcePath targetPath l = (Except.ok d1, l1)) :
    d1.Info = d.Info := by
  unfold Deb.AddFile at h
  simp only [Prog.bind_ok_iff, Prog.pure_ok_iff] at h
  obtain ⟨_, _, _, rfl, _⟩ := h
  rfl

theorem Deb.AddEmptyFolder_info (w : World) (d d1 : Deb) (name : Str)
    (l l1 : List Event) (h : d.AddEmptyFolder w name l = (Except.ok d1, l1)) :
    d1.Info = d.Info := by
  unfold Deb.AddEmptyFolder at h
  simp only [Prog.bind_ok_iff, Prog.pure_ok_iff] at h
  obtain ⟨_, _, _, rfl, _⟩ := h
  rfl

theorem Deb.addFolderFiles_info (w : World) (baseDir pfx : Str) (fs : List Str) (d d1 : Deb)
    (l l1 : List Event) (h : Deb.addFolderFiles w baseDir pfx fs d l = (Except.ok d1, l1)) :
    d1.Info = d.Info := by
  induction fs generalizing d l with
  | nil =>
    unfold Deb.addFolderFiles at h
    rw [Prog.pure_ok_iff] at h
    rw [h.1]
  | cons path rest ih =>
    unfold Deb.addFolderFiles at h
    rw [Prog.bind_ok_iff] at h
    obtain ⟨d2, l2, h1, h2⟩ := h
    rw [ih d2 l2 h2, Deb.AddFile_info w d d2 _ _ l l2 h1]

theorem Deb.AddFolder_info (w : World) (d d1 : Deb) (path pfx : Str)
    (l l1 : List Event) (h : d.AddFolder w path pfx l = (Except.ok d1, l1)) :
    d1.Info = d.Info := by
  unfold Deb.AddFolder at h
  rw [Prog.bind_ok_iff] at h
  obtain ⟨fc, l2, _, h2⟩ := h
  exact Deb.addFolderFiles_info w _ _ fc d d1 l2 l1 h2

theorem debAddFolders_info (w : World) (m : List (Str × Str)) (d d1 : Deb)
    (l l1 : List Event) (h : debAddFolders w m d l = (Except.ok d1, l1)) :
    d1.Info = d.Info := by
  induction m generalizing d l with
  | nil =>
    unfold debAddFolders at h
    rw [Prog.pure_ok_iff] at h
    rw [h.1]
  | cons e rest ih =>
    obtain ⟨path, pfx⟩ := e
    unfold debAddFolders at h
    rw [Prog.bind_ok_iff] at h
    obtain ⟨d2, l2, h1, h2⟩ := h
    rw [Prog.wrap_ok_iff] at h1
    rw [ih d2 l2 h2]
    by_cases hp : pfx = []
    · rw [if_pos hp] at h1
      exact Deb.AddEmptyFolder_info w d d2 path l l2 h1
    · rw [if_neg hp] at h1
      exact Deb.AddFolder_info w d d2 path pfx l l2 h1

theorem debAddFiles_info (w : World) (m : List (Str × Str)) (d d1 : Deb)
    (l l1 : List Event) (h : debAddFiles w m d l = (Except.ok d1, l1)) :
    d1.Info = d.Info := by
  induction m generalizing d l with
  | nil =>
    unfold debAddFiles at h
    rw [Prog.pure_ok_iff] at h
    rw [h.1]
  | cons e rest ih =>
    obtain ⟨source, target⟩ := e
    unfold debAddFiles at h
    rw [Prog.bind_ok_iff] at h
    obtain ⟨d2, l2, h1, h2⟩ := h
    rw [Prog.wrap_ok_iff] at h1
    rw [ih d2 l2 h2, Deb.AddFile_info w d d2 source target l l2 h1]

theorem Field.assign_info (d : Deb) (f : Field) (data : Str) : (f.assign d data).Info = d.Info := by
  cases f <;> rfl

theorem loadFile_info (w : World) (src : Str) (value : Option Field) (d d1 : Deb)
    (l l1 : List Event) (h : loadFile w src value d l = (Except.ok d1, l1)) :
    d1.Info = d.Info := by
  unfold loadFile at h
  by_cases hs : src = []
  · rw [if_pos hs, Prog.pure_ok_iff] at h
    rw [h.1]
  · rw [if_neg hs, Prog.bind_ok_iff] at h
    obtain ⟨data, l2, _, h2⟩ := h
    cases value with
    | none => exact absurd h2 (Prog.fail_not_ok _ _ _ _)
    | some f =>
      have h3 : (pure (f.assign d data) : Prog Deb) l2 = (Except.ok d1, l1) := h2
      rw [Prog.pure_ok_iff] at h3
      rw [h3.1, Field.assign_info]

theorem debLoadFiles_info (w : World) (m : List (Str × Field)) (d d1 : Deb)
    (l l1 : List Event) (h : debLoadFiles w m d l = (Except.ok d1, l1)) :
    d1.Info = d.Info := by
  induction m generalizing d l with
  | nil =>
    unfold debLoadFiles at h
    rw [Prog.pure_ok_iff] at h
    rw [h.1]
  | cons e rest ih =>
    obtain ⟨source, target⟩ := e
    unfold debLoadFiles at h
    rw [Prog.bind_ok_iff] at h
    obtain ⟨d2, l2, h1, h2⟩ := h
    rw [Prog.wrap_ok_iff] at h1
    rw [ih d2 l2 h2, loadFile_info w source _ d d2 l l2 h1]

/-- The `Deb` that `createDeb` hands to `Create` carries the configured name,
the composed version and the configured architecture. -/
theorem createDebPrepare_info (w : World) (cfg : config.PackageOptions) (d : Deb)
    (l l1 : List Event) (h : createDebPrepare w cfg l = (Except.ok d, l1)) :
    d.Info.Package = cfg.Name ∧
    d.Info.Version = (if cfg.Revision ≠ [] then cfg.Version ++ "-".toList ++ cfg.Revision
                      else cfg.Version) ∧
    d.Info.Architecture = cfg.Arch := by
  unfold createDebPrepare at h
  simp only [Prog.bind_ok_iff] at h
  obtain ⟨d0, l2, h0, d2, l3, h2, d3, l4, h3, h4⟩ := h
  have i4 := debLoadFiles_info w _ _ _ _ _ h4
  have i3 := debAddFiles_info w _ _ _ _ _ h3
  have i2 := debAddFolders_info w _ _ _ _ _ h2
  obtain ⟨n1, n2, n3, _⟩ := New_ok w _ _ _ _ _ _ _ _ h0
  rw [i4, i3, i2]
  exact ⟨n1, n2, n3⟩

/-! ## Lemmas on reading a log -/

theorem controlAdds_append (a b : List Event) :
    controlAdds (a ++ b) = controlAdds a ++ controlAdds b := by
  simp [controlAdds, List.filterMap_append]

theorem controlAdds_map_add (E : List Member) :
    controlAdds (E.map (Event.add Which.Control)) = E := by
  induction E with
  | nil => rfl
  | cons m rest ih =>
    have : controlAdds (Event.add Which.Control m :: rest.map (Event.add Which.Control))
        = m :: controlAdds (rest.map (Event.add Which.Control)) := rfl
    rw [List.map_cons, this, ih]

theorem controlAdds_eq_nil (s : List Event) (h : ∀ e ∈ s, e.isControlAdd = false) :
    controlAdds s = [] := by
  induction s with
  | nil => rfl
  | cons e rest ih =>
    have he := h e (List.mem_cons_self _ _)
    have hr := ih (fun e1 h1 => h e1 (List.mem_cons_of_mem _ h1))
    cases e with
    | add c m =>
      cases c with
      | Control => exact absurd he (by simp [Event.isControlAdd])
      | Data => simpa [controlAdds] using hr
    | _ => simpa [controlAdds] using hr

theorem strings.Split_ne_nil (s : Str) (sep : Char) : strings.Split s sep ≠ [] := by
  cases s with
  | nil => simp [strings.Split]
  | cons c cs =>
    unfold strings.Split
    split_ifs
    · simp
    · cases strings.Split cs sep <;> simp

/-- Joining the pieces with the separator gives the string back. -/
theorem strings.Join_Split (s : Str) (sep : Char) :
    strings.Join (strings.Split s sep) [sep] = s := by
  induction s with
  | nil => simp [strings.Split, strings.Join, List.intercalate]
  | cons c cs ih =>
    unfold strings.Split
    rcases hsp : strings.Split cs sep with _ | ⟨h, t⟩
    · exact absurd hsp (strings.Split_ne_nil cs sep)
    · rw [hsp] at ih
      by_cases hc : c = sep
      · rw [if_pos hc]
        simp only [strings.Join, List.intercalate] at ih ⊢
        simp [List.intersperse, ih, hc]
      · rw [if_neg hc]
        simp only [strings.Join, List.intercalate] at ih ⊢
        cases t with
        | nil => simpa [List.intersperse] using ih
        | cons t1 t2 => simpa [List.intersperse] using ih

/-- No piece contains the separator. -/
theorem strings.Split_no_sep (s : Str) (sep : Char) :
    ∀ t ∈ strings.Split s sep, sep ∉ t := by
  induction s with
  | nil => simp [strings.Split]
  | cons c cs ih =>
    unfold strings.Split
    rcases hsp : strings.Split cs sep with _ | ⟨h, t⟩
    · exact absurd hsp (strings.Split_ne_nil cs sep)
    · rw [hsp] at ih
      by_cases hc : c = sep
      · rw [if_pos hc]
        intro t1 ht1
        rcases List.mem_cons.mp ht1 with rfl | h1
        · simp
        · exact ih t1 h1
      · rw [if_neg hc]
        intro t1 ht1
        rcases List.mem_cons.mp ht1 with rfl | h1
        · intro hmem
          rcases List.mem_cons.mp hmem with h2 | h2
          · exact hc h2.symm
          · exact ih h (List.mem_cons_self _ _) h2
        · exact ih t1 (List.mem_cons_of_mem _ h1)

/-- There is one piece more than there are separators. -/
theorem strings.Split_length (s : Str) (sep : Char) :
    (strings.Split s sep).length = s.count sep + 1 := by
  induction s with
  | nil => simp [strings.Split]
  | cons c cs ih =>
    unfold strings.Split
    rcases hsp : strings.Split cs sep with _ | ⟨h, t⟩
    · exact absurd hsp (strings.Split_ne_nil cs sep)
    · rw [hsp] at ih
      by_cases hc : c = sep
      · rw [if_pos hc, hc]
        simp only [List.length_cons, List.count_cons_self] at ih ⊢
        omega
      · rw [if_neg hc]
        have hcount : List.count sep (c :: cs) = List.count sep cs := by
          simp [List.count_cons, hc]
        rw [hcount]
        exact ih

theorem dependsCalls_append (a b : List Event) :
    dependsCalls (a ++ b) = dependsCalls a ++ dependsCalls b := by
  simp [dependsCalls, List.filterMap_append]

theorem dependsCalls_eq_nil (s : List Event) (h : ∀ e ∈ s, e.isDepends = false) :
    dependsCalls s = [] := by
  induction s with
  | nil => rfl
  | cons e rest ih =>
    have he := h e (List.mem_cons_self _ _)
    have hr := ih (fun e1 h1 => h e1 (List.mem_cons_of_mem _ h1))
    cases e with
    | rpmDepends toks => exact absurd he (by simp [Event.isDepends])
    | _ => simpa [dependsCalls] using hr

theorem rpmAddFolders_emits (w : World) (m : List (Str × Str)) :
    Prog.Emits (fun e => e.isDepends = false) (rpmAddFolders w m) := by
  induction m with
  | nil => exact Prog.Emits.ret _ _
  | cons e rest ih =>
    obtain ⟨path, pfx⟩ := e
    unfold rpmAddFolders
    exact Prog.Emits.bind _ _ _
      (Prog.Emits.wrap _ _ _
        (Prog.Emits.ite _ _ _ _ (w.perform_emits _ _ rfl) (w.perform_emits _ _ rfl)))
      (fun _ => ih)

theorem rpmAddFiles_emits (w : World) (m : List (Str × Str)) :
    Prog.Emits (fun e => e.isDepends = false) (rpmAddFiles w m) := by
  induction m with
  | nil => exact Prog.Emits.ret _ _
  | cons e rest ih =>
    obtain ⟨source, target⟩ := e
    unfold rpmAddFiles
    exact Prog.Emits.bind _ _ _ (Prog.Emits.wrap _ _ _ (w.perform_emits _ _ rfl)) (fun _ => ih)

/-- When `rpm.New` succeeds, `createRPM` calls `Spec.Depends` exactly once, with the
dependency string split at its spaces. -/
theorem createRPM_dependsCalls (w : World) (opts : Options) (cfg : config.PackageOptions)
    (l : List Event)
    (hnew : w.fails l (Event.rpmNew cfg.Name cfg.Version cfg.Revision cfg.Arch) = none) :
    ∃ s, (createRPM w opts cfg l).2 = l ++ s ∧
      dependsCalls s = [strings.Split cfg.Depends ' '] := by
  unfold createRPM
  rw [Prog.bind_apply, World.perform_of_none w _ l hnew]
  simp only [Prog.bind_apply, Prog.emit]
  obtain ⟨s2, hs2, hP⟩ :=
    Prog.Emits.bind (fun e => e.isDepends = false) (rpmAddFolders w (w.range cfg.Folders))
      (fun _ => rpmAddFiles w (w.range cfg.Files) >>= fun _ =>
        Prog.wrap (fun err => "failed to create package: '".toList ++ err ++ "'".toList)
          (w.perform (Event.rpmCreate opts.OutPath)))
      (rpmAddFolders_emits w _)
      (fun _ => Prog.Emits.bind _ _ _ (rpmAddFiles_emits w _)
        (fun _ => Prog.Emits.wrap _ _ _ (w.perform_emits _ _ rfl)))
      (l ++ [Event.rpmNew cfg.Name cfg.Version cfg.Revision cfg.Arch]
         ++ [Event.rpmHeader RpmTag.Summary cfg.Name]
         ++ [Event.rpmHeader RpmTag.Packager cfg.Maintainer]
         ++ [Event.rpmHeader RpmTag.URL cfg.Homepage]
         ++ [Event.rpmDepends (strings.Split cfg.Depends ' ')]
         ++ [Event.rpmDescription cfg.Description])
  refine ⟨[Event.rpmNew cfg.Name cfg.Version cfg.Revision cfg.Arch,
           Event.rpmHeader RpmTag.Summary cfg.Name,
           Event.rpmHeader RpmTag.Packager cfg.Maintainer,
           Event.rpmHeader RpmTag.URL cfg.Homepage,
           Event.rpmDepends (strings.Split cfg.Depends ' '),
           Event.rpmDescription cfg.Description] ++ s2, ?_, ?_⟩
  · simp only [Prog.bind_apply] at hs2
    rw [hs2]
    simp
  · rw [dependsCalls_append, dependsCalls_eq_nil s2 hP]
    rfl

/-- On a string whose only whitespace is the space, splitting at whitespace and
splitting at spaces give the same pieces. -/
theorem splitWhere_isSpace_eq_Split (s : Str) (h : ∀ c ∈ s, isSpace c = true → c = ' ') :
    splitWhere isSpace s = strings.Split s ' ' := by
  induction s with
  | nil => rfl
  | cons c cs ih =>
    have ih1 := ih (fun c1 h1 => h c1 (List.mem_cons_of_mem _ h1))
    unfold splitWhere strings.Split
    rw [ih1]
    by_cases hc : c = ' '
    · rw [if_pos hc, hc, if_pos (by decide)]
    · have hs : ¬ isSpace c = true := fun h2 => hc (h c (List.mem_cons_self _ _) h2)
      rw [if_neg hc, if_neg hs]

/-! ## The `Deb` built by a successful run does not depend on the log -/

/-- C1: for a non-empty name, a `Deb` built by `deb.New(name, version, revision, arch, _)`
(and any `Deb` with the same package name, version and architecture fields, such as the one
`createDeb` fills in afterwards) returns from every successful `Create(folder)` the path
`filepath.Join(folder, name_V_arch.deb)`, where `V` is `version-revision` when the revision is
non-empty and `version` otherwise; and where no operation fails `Create` does succeed. -/
theorem C1_create_returns_joined_path (w : World) (now : Nat) (name version revision : Str)
    (arch : Arch) (comp : DataCompression) (folder : Str) (l0 l1 : List Event) (d d1 : Deb)
    (hname : name ≠ [])
    (hnew : New w name version revision arch comp l0 = (Except.ok d, l1))
    (hinfo : d1.Info.Package = d.Info.Package ∧ d1.Info.Version = d.Info.Version ∧
      d1.Info.Architecture = d.Info.Architecture) :
    (∀ l p l2, d1.Create w now folder l = (Except.ok p, l2) →
      p = filepath.Join [folder,
            name ++ "_".toList ++ (if revision = [] then version
                                   else version ++ "-".toList ++ revision)
              ++ "_".toList ++ arch ++ ".deb".toList]) ∧
    ((∀ h e, w.fails h e = none) → ∀ l, ∃ l2,
      d1.Create w now folder l =
        (Except.ok (filepath.Join [folder,
            name ++ "_".toList ++ (if revision = [] then version
                                   else version ++ "-".toList ++ revision)
              ++ "_".toList ++ arch ++ ".deb".toList]), l2)) := by
  obtain ⟨n1, n2, n3, _⟩ := New_ok w name version revision arch comp d l0 l1 hnew
  obtain ⟨i1, i2, i3⟩ := hinfo
  have hfile : d1.fileName folder = filepath.Join [folder,
      name ++ "_".toList ++ (if revision = [] then version else version ++ "-".toList ++ revision)
        ++ "_".toList ++ arch ++ ".deb".toList] := by
    unfold Deb.fileName
    rw [i1, i2, i3, n1, n2, n3]
    by_cases hr : revision = []
    · rw [if_neg (not_not.mpr hr), if_pos hr]
    · rw [if_pos hr, if_neg hr]
  constructor
  · intro l p l2 h
    rw [(Deb.Create_ok w now d1 folder p l l2 h).2.1, hfile]
  · intro hw l
    rw [← hfile]
    exact Deb.Create_succeeds w now d1 folder l (by rw [i1, n1]; exact hname) hw

theorem C1_create_returns_joined_path_witness :
    ("demo".toList ≠ [] ∧
     New demoWorld "demo".toList "1.0".toList "2".toList Arch_AMD64 Compression_GZIP []
       = (Except.ok demoDeb, [Event.newCanonical, Event.newCanonical])) ∧
    demoDeb.Create demoWorld 7 "out".toList [] =
      (Except.ok "out/demo_1.0-2_amd64.deb".toList,
        (demoDeb.Create demoWorld 7 "out".toList []).2) ∧
    ((∀ l p l2, demoDeb.Create demoWorld 7 "out".toList l = (Except.ok p, l2) →
      p = filepath.Join ["out".toList,
            "demo".toList ++ "_".toList ++ (if "2".toList = [] then "1.0".toList
                                   else "1.0".toList ++ "-".toList ++ "2".toList)
              ++ "_".toList ++ Arch_AMD64 ++ ".deb".toList]) ∧
    ((∀ h e, demoWorld.fails h e = none) → ∀ l, ∃ l2,
      demoDeb.Create demoWorld 7 "out".toList l =
        (Except.ok (filepath.Join ["out".toList,
            "demo".toList ++ "_".toList ++ (if "2".toList = [] then "1.0".toList
                                   else "1.0".toList ++ "-".toList ++ "2".toList)
              ++ "_".toList ++ Arch_AMD64 ++ ".deb".toList]), l2))) :=
  ⟨⟨by decide, by decide⟩, by decide,
   C1_create_returns_joined_path demoWorld 7 "demo".toList "1.0".toList "2".toList Arch_AMD64
     Compression_GZIP "out".toList [] [Event.newCanonical, Event.newCanonical] demoDeb demoDeb
     (by decide) (by decide) ⟨rfl, rfl, rfl⟩⟩

/-- C3: when `Create` succeeds, what it does after the additions to the control archive is
exactly: create the output file, write the global header, then the member `debian-binary`
(header size 4, body the four bytes `2.0` and a newline), then the control archive as
`control.tar.gz`, then the data archive as `data.tar.gz`; nothing is written before
`debian-binary` or between the two archives. -/
theorem C3_ar_members_in_order (w : World) (now : Nat) (d : Deb) (folder p : Str)
    (l l1 : List Event) (h : d.Create w now folder l = (Except.ok p, l1)) :
    ∃ pre ctl,
      l1 = l ++ pre ++
        [Event.osCreate p,
         Event.arGlobalHeader,
         Event.arHeader { Name := "debian-binary".toList, ModTime := now, Mode := 0o664, Size := 4 },
         Event.arBody "2.0\n".toList,
         Event.arArchive "control.tar.gz".toList ctl,
         Event.arArchive "data.tar.gz".toList d.Data] ∧
      (∀ e ∈ pre, e.isControlAdd = true) ∧
      ctl.members = d.Control.members ++ controlAdds pre ∧
      "2.0\n".toList.length = 4 := by
  obtain ⟨_, hp, hl⟩ := Deb.Create_ok w now d folder p l l1 h
  refine ⟨(expectedControlEntries w d).map (Event.add Which.Control),
    { members := d.Control.members ++ expectedControlEntries w d, md5s := d.Control.md5s },
    ?_, ?_, ?_, rfl⟩
  · rw [hl, hp]
    rfl
  · intro e he
    obtain ⟨m, _, rfl⟩ := List.mem_map.mp he
    rfl
  · rw [controlAdds_map_add]

theorem C3_ar_members_in_order_witness :
    demoDeb.Create demoWorld 7 "out".toList [Event.newCanonical]
      = (Except.ok "out/demo_1.0-2_amd64.deb".toList,
         (demoDeb.Create demoWorld 7 "out".toList [Event.newCanonical]).2) ∧
    ∃ pre ctl,
      (demoDeb.Create demoWorld 7 "out".toList [Event.newCanonical]).2
        = [Event.newCanonical] ++ pre ++
        [Event.osCreate "out/demo_1.0-2_amd64.deb".toList,
         Event.arGlobalHeader,
         Event.arHeader { Name := "debian-binary".toList, ModTime := 7, Mode := 0o664, Size := 4 },
         Event.arBody "2.0\n".toList,
         Event.arArchive "control.tar.gz".toList ctl,
         Event.arArchive "data.tar.gz".toList demoDeb.Data] ∧
      (∀ e ∈ pre, e.isControlAdd = true) ∧
      ctl.members = demoDeb.Control.members ++ controlAdds pre ∧
      "2.0\n".toList.length = 4 :=
  ⟨by decide,
   C3_ar_members_in_order demoWorld 7 demoDeb "out".toList "out/demo_1.0-2_amd64.deb".toList
     [Event.newCanonical] _ (by decide)⟩

/-- C5: for a `Deb` with a non-empty name, when no addition to the control archive fails,
the entries `Create` adds to the control archive are, in order: the folder `./`, `./control`
with the rendered control text, `./md5sums` with the checksum listing of the data archive, and
then `postinst`, `preinst`, `postrm`, `prerm`, `conffiles`, each present exactly when its text
is non-empty and then holding that text unchanged. -/
theorem C5_control_entries (w : World) (now : Nat) (d : Deb) (folder : Str) (l : List Event)
    (hname : d.Info.Package ≠ [])
    (hadd : ∀ h m, w.fails h (Event.add Which.Control m) = none) :
    ∃ s, (d.Create w now folder l).2 = l ++ s ∧
      controlAdds s =
        [Member.folder "./".toList,
         Member.file "./control".toList (w.render d.Info),
         Member.file "./md5sums".toList d.Data.md5Bytes]
        ++ (if d.PostInst ≠ [] then [Member.file "postinst".toList d.PostInst] else [])
        ++ (if d.PreInst ≠ [] then [Member.file "preinst".toList d.PreInst] else [])
        ++ (if d.PostRm ≠ [] then [Member.file "postrm".toList d.PostRm] else [])
        ++ (if d.PreRm ≠ [] then [Member.file "prerm".toList d.PreRm] else [])
        ++ (if d.ConfFiles ≠ [] then [Member.file "conffiles".toList d.ConfFiles] else []) := by
  unfold Deb.Create
  rw [if_neg hname, Prog.bind_apply, Deb.addControlEntries_of_none w d l hadd]
  obtain ⟨s2, hs2, hP⟩ := Deb.writePackage_emits w now d
    { members := d.Control.members ++ expectedControlEntries w d, md5s := d.Control.md5s } folder
    (l ++ (expectedControlEntries w d).map (Event.add Which.Control))
  refine ⟨(expectedControlEntries w d).map (Event.add Which.Control) ++ s2, ?_, ?_⟩
  · show (d.writePackage w now _ folder _).2 = _
    rw [hs2, List.append_assoc]
  · rw [controlAdds_append, controlAdds_map_add, controlAdds_eq_nil s2 hP, List.append_nil]
    rfl

theorem C5_control_entries_witness :
    (demoDeb.Info.Package ≠ [] ∧
     ∀ h m, demoWorld.fails h (Event.add Which.Control m) = none) ∧
    ∃ s, ({ demoDeb with PreInst := "exit 0".toList }.Create demoWorld 7 "out".toList []).2
          = [] ++ s ∧
      controlAdds s =
        [Member.folder "./".toList,
         Member.file "./control".toList
           (demoWorld.render { demoDeb with PreInst := "exit 0".toList }.Info),
         Member.file "./md5sums".toList { demoDeb with PreInst := "exit 0".toList }.Data.md5Bytes]
        ++ (if { demoDeb with PreInst := "exit 0".toList }.PostInst ≠ []
            then [Member.file "postinst".toList { demoDeb with PreInst := "exit 0".toList }.PostInst]
            else [])
        ++ (if { demoDeb with PreInst := "exit 0".toList }.PreInst ≠ []
            then [Member.file "preinst".toList { demoDeb with PreInst := "exit 0".toList }.PreInst]
            else [])
        ++ (if { demoDeb with PreInst := "exit 0".toList }.PostRm ≠ []
            then [Member.file "postrm".toList { demoDeb with PreInst := "exit 0".toList }.PostRm]
            else [])
        ++ (if { demoDeb with PreInst := "exit 0".toList }.PreRm ≠ []
            then [Member.file "prerm".toList { demoDeb with PreInst := "exit 0".toList }.PreRm]
            else [])
        ++ (if { demoDeb with PreInst := "exit 0".toList }.ConfFiles ≠ []
            then [Member.file "conffiles".toList
                    { demoDeb with PreInst := "exit 0".toList }.ConfFiles]
            else []) :=
  ⟨⟨by decide, fun _ _ => rfl⟩,
   C5_control_entries demoWorld 7 { demoDeb with PreInst := "exit 0".toList } "out".toList []
     (by decide) (fun _ _ => rfl)⟩

/-- C2, as stated, fails: with an empty name `createDeb` still walks the configured folder and
reads the configured source files and script file before `Create` rejects the name. -/
theorem C2_counterexample :
    namelessConfig.Name = [] ∧
    (createDeb demoWorld 7 {} namelessConfig []).1
      = Except.error "failed to create package: 'package name cannot be empty'".toList ∧
    (createDeb demoWorld 7 {} namelessConfig []).2 =
      [Event.newCanonical, Event.newCanonical,
       Event.walk ".hidden".toList,
       Event.readFile ".hidden/a.txt".toList,
       Event.add Which.Data (Member.file "/opt/hidden/a.txt".toList "a".toList),
       Event.readFile "README".toList,
       Event.add Which.Data (Member.file "/usr/share/doc/demo/README".toList "hello".toList),
       Event.readFile "LICENSE".toList,
       Event.add Which.Data (Member.file "/usr/share/doc/demo/LICENSE".toList "free".toList),
       Event.readFile "s.sh".toList] := by
  decide

/-- C2, amended: with an empty name `createDeb` never succeeds; when the steps before `Create`
succeed the error is the one of `Create`, and nothing further happens; in every case nothing
is added to the control archive, no output file is created and nothing is written to it. -/
theorem C2_empty_name_fails (w : World) (now : Nat) (opts : Options)
    (cfg : config.PackageOptions) (l : List Event) (hname : cfg.Name = []) :
    (∃ msg, (createDeb w now opts cfg l).1 = Except.error msg) ∧
    (∀ d l1, createDebPrepare w cfg l = (Except.ok d, l1) →
      createDeb w now opts cfg l
        = (Except.error "failed to create package: 'package name cannot be empty'".toList, l1)) ∧
    ∃ s, (createDeb w now opts cfg l).2 = l ++ s ∧ ∀ e ∈ s, e.isOutput = false := by
  have key : ∀ d l1, createDebPrepare w cfg l = (Except.ok d, l1) →
      createDeb w now opts cfg l
        = (Except.error "failed to create package: 'package name cannot be empty'".toList, l1) := by
    intro d l1 hp
    have hd : d.Info.Package = [] := by
      rw [(createDebPrepare_info w cfg d l l1 hp).1, hname]
    unfold createDeb
    rw [Prog.bind_apply, hp]
    show (Prog.wrap _ (d.Create w now opts.OutPath) >>= fun _ => pure ()) l1 = _
    rw [Prog.bind_apply]
    unfold Prog.wrap Deb.Create
    rw [if_pos hd]
    rfl
  have run : ∃ msg, createDeb w now opts cfg l = (Except.error msg, (createDebPrepare w cfg l).2)
      := by
    rcases hp : createDebPrepare w cfg l with ⟨r, lp⟩
    cases r with
    | error err =>
      refine ⟨err, ?_⟩
      unfold createDeb
      rw [Prog.bind_apply, hp]
    | ok d => exact ⟨_, key d lp hp⟩
  obtain ⟨msg, hrun⟩ := run
  obtain ⟨s, hs, hP⟩ := createDebPrepare_emits w cfg l
  refine ⟨⟨msg, by rw [hrun]⟩, key, s, ?_, hP⟩
  rw [hrun]
  exact hs

theorem C2_empty_name_fails_witness :
    namelessConfig.Name = [] ∧
    ((∃ msg, (createDeb demoWorld 7 {} namelessConfig []).1 = Except.error msg) ∧
    (∀ d l1, createDebPrepare demoWorld namelessConfig [] = (Except.ok d, l1) →
      createDeb demoWorld 7 {} namelessConfig []
        = (Except.error "failed to create package: 'package name cannot be empty'".toList, l1)) ∧
    ∃ s, (createDeb demoWorld 7 {} namelessConfig []).2 = [] ++ s ∧
      ∀ e ∈ s, e.isOutput = false) :=
  ⟨rfl, C2_empty_name_fails demoWorld 7 {} namelessConfig [] rfl⟩

/-- C4: `New` drops the compression codec, and `Create` writes the data archive under
`data.tar.gz` whatever the codec: for the codec `xz` the member is not `data.tar.xz`. -/
theorem C4_data_member_name_ignores_codec :
    (∀ (w : World) (name version revision : Str) (arch : Arch) (c : DataCompression)
        (l : List Event),
      New w name version revision arch c l = New w name version revision arch Compression_GZIP l) ∧
    New demoWorld "demo".toList "1.0".toList "2".toList Arch_AMD64 Compression_XZ []
      = (Except.ok demoDeb, [Event.newCanonical, Event.newCanonical]) ∧
    (demoDeb.Create demoWorld 7 "out".toList []).1
      = Except.ok "out/demo_1.0-2_amd64.deb".toList ∧
    Event.arArchive "data.tar.gz".toList demoDeb.Data
      ∈ (demoDeb.Create demoWorld 7 "out".toList []).2 ∧
    (∀ c, Event.arArchive "data.tar.xz".toList c
      ∉ (demoDeb.Create demoWorld 7 "out".toList []).2) := by
  refine ⟨fun _ _ _ _ _ _ _ => rfl, by decide, by decide, by decide, ?_⟩
  intro c hc
  have hl : (demoDeb.Create demoWorld 7 "out".toList []).2
      = (expectedControlEntries demoWorld demoDeb).map (Event.add Which.Control)
          ++ writeEvents 7 demoDeb
              { members := demoDeb.Control.members ++ expectedControlEntries demoWorld demoDeb,
                md5s := demoDeb.Control.md5s } "out".toList := by
    decide
  rw [hl] at hc
  revert hc
  simp [writeEvents, expectedControlEntries, optionalEntry, debControl, debData]

/-- C6: with `--version 3.1 --revision 9` on a configuration of version 1.0, revision 2,
`create` builds packages of version 3.1 and revision 2: the revision given on the command
line is not applied. -/
theorem C6_revision_override_not_applied :
    demoWorld.unmarshal "json".toList = Except.ok demoConfig ∧
    demoConfig.Version = "1.0".toList ∧ demoConfig.Revision = "2".toList ∧
    overrideOptions.Version = "3.1".toList ∧ overrideOptions.Revision = "9".toList ∧
    (create demoWorld 7 overrideOptions []).1 = Except.ok () ∧
    Event.rpmNew "demo".toList "3.1".toList "2".toList "amd64".toList
      ∈ (create demoWorld 7 overrideOptions []).2 ∧
    Event.osCreate "demo_3.1-2_amd64.deb".toList ∈ (create demoWorld 7 overrideOptions []).2 ∧
    Event.osCreate "demo_3.1-9_amd64.deb".toList ∉ (create demoWorld 7 overrideOptions []).2 := by
  decide

/-- C7: when `post_inst` and `pre_inst` name the same readable file, the map of `createDeb`
keeps one entry for that path, and only `PreInst` is loaded: `PostInst` stays empty although
its path is non-empty, in whatever order the map is visited. -/
theorem C7_shared_path_loads_one_field :
    sharedScriptConfig.Script.PostInst = "s.sh".toList ∧
    sharedScriptConfig.Script.PreInst = "s.sh".toList ∧
    demoWorld.readFile "s.sh".toList = Except.ok "exit 0".toList ∧
    scriptFiles sharedScriptConfig = [("s.sh".toList, Field.PreInst), ([], Field.ConfFiles)] ∧
    (createDebPrepare demoWorld sharedScriptConfig []).1.map (fun d => (d.PostInst, d.PreInst))
      = Except.ok ([], "exit 0".toList) ∧
    (createDebPrepare reverseWorld sharedScriptConfig []).1.map (fun d => (d.PostInst, d.PreInst))
      = Except.ok ([], "exit 0".toList) := by
  decide

/-- C8: for the folder `.hidden` holding `.hidden/a.txt` and the target `/opt`, `AddFolder`
adds the file under `/opt/hidden/a.txt`, not `/opt/.hidden/a.txt`; for the folder `assets/`
(trailing separator) holding `assets/logo.png` it adds `/opt/logo.png`, not
`/opt/assets/logo.png` as it does for `assets`. -/
theorem C8_addFolder_target_paths :
    filepath.Dir ".hidden".toList = ".".toList ∧
    (demoDeb.AddFolder demoWorld ".hidden".toList "/opt".toList []).2
      = [Event.walk ".hidden".toList, Event.readFile ".hidden/a.txt".toList,
         Event.add Which.Data (Member.file "/opt/hidden/a.txt".toList "a".toList)] ∧
    filepath.Dir "assets/".toList = "assets".toList ∧
    (demoDeb.AddFolder demoWorld "assets/".toList "/opt".toList []).2
      = [Event.walk "assets/".toList, Event.readFile "assets/logo.png".toList,
         Event.add Which.Data (Member.file "/opt/logo.png".toList "png".toList)] ∧
    (demoDeb.AddFolder demoWorld "assets".toList "/opt".toList []).2
      = [Event.walk "assets".toList, Event.readFile "assets/logo.png".toList,
         Event.add Which.Data (Member.file "/opt/assets/logo.png".toList "png".toList)] := by
  decide

/-- C9, as stated, fails: the tokens `createRPM` passes to `Spec.Depends` are not the split on
whitespace.  The empty string gives one empty token, two spaces in a row give an empty token
between them, and a tab does not separate. -/
theorem C9_counterexample :
    dependsCalls (createRPM demoWorld {} { demoConfig with Depends := [] } []).2 = [[[]]] ∧
    whitespaceFields [] = [] ∧
    dependsCalls (createRPM demoWorld {} { demoConfig with Depends := "libc6  zlib1g".toList } []).2
      = [["libc6".toList, [], "zlib1g".toList]] ∧
    whitespaceFields "libc6  zlib1g".toList = ["libc6".toList, "zlib1g".toList] ∧
    dependsCalls (createRPM demoWorld {} { demoConfig with Depends := "libc6\tzlib1g".toList } []).2
      = [["libc6\tzlib1g".toList]] ∧
    whitespaceFields "libc6\tzlib1g".toList = ["libc6".toList, "zlib1g".toList] := by
  decide

/-- C9, amended: when `rpm.New` succeeds, `createRPM` calls `Spec.Depends` exactly once, with
the dependency string split at every space character: joining the tokens with single spaces
gives the string back, no token contains a space, and there is one token more than there are
spaces (so empty tokens occur at a leading, trailing or doubled space and for the empty
string).  When the only whitespace in the string is the space and no token is empty, these
are the tokens of the split on whitespace. -/
theorem C9_depends_split_at_spaces (w : World) (opts : Options) (cfg : config.PackageOptions)
    (l : List Event)
    (hnew : w.fails l (Event.rpmNew cfg.Name cfg.Version cfg.Revision cfg.Arch) = none) :
    ∃ s toks, (createRPM w opts cfg l).2 = l ++ s ∧ dependsCalls s = [toks] ∧
      strings.Join toks " ".toList = cfg.Depends ∧
      (∀ t ∈ toks, ' ' ∉ t) ∧
      toks.length = cfg.Depends.count ' ' + 1 ∧
      ((∀ c ∈ cfg.Depends, isSpace c = true → c = ' ') → [] ∉ toks →
        toks = whitespaceFields cfg.Depends) := by
  obtain ⟨s, hs, hd⟩ := createRPM_dependsCalls w opts cfg l hnew
  refine ⟨s, strings.Split cfg.Depends ' ', hs, hd, strings.Join_Split _ _,
    strings.Split_no_sep _ _, strings.Split_length _ _, ?_⟩
  intro hsp hne
  unfold whitespaceFields
  rw [splitWhere_isSpace_eq_Split _ hsp]
  symm
  apply List.filter_eq_self.mpr
  intro t ht
  have : t ≠ [] := fun h => hne (h ▸ ht)
  simpa using this

theorem C9_depends_split_at_spaces_witness :
    demoWorld.fails []
      (Event.rpmNew demoConfig.Name demoConfig.Version demoConfig.Revision demoConfig.Arch) = none ∧
    ∃ s toks, (createRPM demoWorld {} demoConfig []).2 = [] ++ s ∧ dependsCalls s = [toks] ∧
      strings.Join toks " ".toList = demoConfig.Depends ∧
      (∀ t ∈ toks, ' ' ∉ t) ∧
      toks.length = demoConfig.Depends.count ' ' + 1 ∧
      ((∀ c ∈ demoConfig.Depends, isSpace c = true → c = ' ') → [] ∉ toks →
        toks = whitespaceFields demoConfig.Depends) :=
  ⟨rfl, C9_depends_split_at_spaces demoWorld {} demoConfig [] rfl⟩

end gopack
